import Mathlib

/-!
Verification of the spectral colour engine of `aop_leptos`.

The Rust sources embedded here are
`src/services/optimization.rs` (Kubelka–Munk mixing and weight optimization),
`src/services/paint_mixing.rs` (strategy enumeration, recipe search, ranking),
`src/services/lhtss.rs` (LHTSS spectral reconstruction and colorimetry), and
`src/models/paint.rs` (data model and error type).

Modelling conventions:
* `f64` arithmetic is modelled by exact rational arithmetic (`ℚ`).  The one
  intrinsically inexact operation the code uses, `f64::sqrt`, is abstracted as
  an explicit function parameter `sq : ℚ → ℚ`; theorems that depend on its
  value assume `IsSqrtAt sq x` (an exact non-negative square root at the
  points actually used).  `f64` division by zero yields a non-finite value in
  Rust; in `ℚ` it yields `0`.  No theorem below depends on a value produced
  by a division whose divisor can be zero.
* Rust panics (out-of-bounds indexing, `ndarray` shape mismatches) are
  modelled by `Option`, with `none` for a panic.
* The transcendental internals of the LHTSS Newton solver (`tanh`, `cosh`,
  LU/SVD solves) are abstracted as function parameters over an abstract state
  type; the loop structure, best-iterate tracking, convergence test and
  return-channel logic are embedded literally.
-/

/-- `f64::MAX`, the initial `best_error` in both iterative solvers:
`(2^53 - 1) * 2^971`. -/
def fMAX : ℚ := (2 ^ 53 - 1) * 2 ^ 971

/-- `sq` is an exact non-negative square root at the point `x`. -/
def IsSqrtAt (sq : ℚ → ℚ) (x : ℚ) : Prop :=
  0 ≤ sq x ∧ sq x ^ 2 = x

/-- `optimization.rs` lines 11-16: convert reflectance `R` to the
Kubelka–Munk `K/S` ratio `(1 - R)^2 / (2 R)`, clamping `R` to
`[0.001, 0.999]` first (`r.max(0.001).min(0.999)`). -/
def reflectance_to_ks (r : ℚ) : ℚ :=
  let r2 := min (max r (1 / 1000)) (999 / 1000)
  (1 - r2) ^ 2 / (2 * r2)

/-- The argument that `ks_to_reflectance` passes to `sqrt` when fed
`reflectance_to_ks r`, namely `ks*ks + 2*ks`. -/
def ksArg (r : ℚ) : ℚ :=
  reflectance_to_ks r * reflectance_to_ks r + 2 * reflectance_to_ks r

/-- `optimization.rs` lines 20-28: convert a `K/S` ratio back to reflectance:
`K/S ≤ 0 ↦ 1`, otherwise `1 + K/S - sqrt(K/S² + 2 K/S)` clamped to `[0, 1]`
(`r.max(0.0).min(1.0)`).  The `f64::sqrt` intrinsic is the parameter `sq`. -/
def ks_to_reflectance (sq : ℚ → ℚ) (ks : ℚ) : ℚ :=
  if ks ≤ 0 then 1
  else min (max (1 + ks - sq (ks * ks + 2 * ks)) 0) 1

/-- The K/S round trip is exact (in exact arithmetic) for reflectance values
inside the clamp range `[0.001, 0.999]`. -/
theorem roundtrip_eq (sq : ℚ → ℚ) (R : ℚ) (h1 : 1 / 1000 ≤ R)
    (h2 : R ≤ 999 / 1000) (hs : IsSqrtAt sq (ksArg R)) :
    ks_to_reflectance sq (reflectance_to_ks R) = R := by
  have hR0 : (0 : ℚ) < R := lt_of_lt_of_le (by norm_num) h1
  have hR1 : R < 1 := lt_of_le_of_lt h2 (by norm_num)
  have hclamp : min (max R (1 / 1000)) (999 / 1000) = R := by
    rw [max_eq_left h1, min_eq_left h2]
  have hks : reflectance_to_ks R = (1 - R) ^ 2 / (2 * R) := by
    unfold reflectance_to_ks
    rw [hclamp]
  set ks : ℚ := (1 - R) ^ 2 / (2 * R) with hksdef
  have hkspos : 0 < ks := by
    apply div_pos
    · have : 0 < 1 - R := by linarith
      positivity
    · linarith
  obtain ⟨hnn, hsq⟩ := hs
  have harg : ksArg R = ks * ks + 2 * ks := by
    unfold ksArg
    rw [hks]
  -- the square root of ks² + 2ks is (1 - R²)/(2R)
  have htpos : 0 ≤ (1 - R ^ 2) / (2 * R) := by
    apply div_nonneg
    · nlinarith
    · linarith
  have htsq : ((1 - R ^ 2) / (2 * R)) ^ 2 = ks * ks + 2 * ks := by
    rw [hksdef]
    field_simp
    ring
  have hroot : sq (ks * ks + 2 * ks) = (1 - R ^ 2) / (2 * R) := by
    have h1' : sq (ksArg R) ^ 2 = ((1 - R ^ 2) / (2 * R)) ^ 2 := by
      rw [hsq, harg, htsq]
    have h2' : sq (ksArg R) = sq (ks * ks + 2 * ks) := by rw [harg]
    nlinarith [hnn, h1', h2', htpos]
  have hval : 1 + ks - sq (ks * ks + 2 * ks) = R := by
    rw [hroot, hksdef]
    field_simp
    ring
  unfold ks_to_reflectance
  rw [hks]
  rw [if_neg (not_le.mpr hkspos), hval]
  rw [max_eq_left (le_of_lt hR0), min_eq_left (le_of_lt hR1)]

/-- C7: for R strictly inside (0.001, 0.999), the K/S round trip
`ks_to_reflectance (reflectance_to_ks R)` differs from `R` by less than
`1e-9` (in the exact-rational model the difference is zero). -/
theorem ks_roundtrip (sq : ℚ → ℚ) (R : ℚ) (h1 : 1 / 1000 < R)
    (h2 : R < 999 / 1000) (hs : IsSqrtAt sq (ksArg R)) :
    |ks_to_reflectance sq (reflectance_to_ks R) - R| < 1 / 1000000000 := by
  rw [roundtrip_eq sq R (le_of_lt h1) (le_of_lt h2) hs]
  simp

/-- Concrete instance of C7 at `R = 1/2` with the exact square root `3/4`
of `ksArg (1/2) = 9/16`. -/
theorem ks_roundtrip_witness :
    (1 : ℚ) / 1000 < 1 / 2 ∧ (1 : ℚ) / 2 < 999 / 1000 ∧
      IsSqrtAt (fun _ => 3 / 4) (ksArg (1 / 2)) ∧
      |ks_to_reflectance (fun _ => 3 / 4) (reflectance_to_ks (1 / 2)) - 1 / 2|
        < 1 / 1000000000 := by
  refine ⟨by norm_num, by norm_num, ⟨by norm_num, ?_⟩, ?_⟩
  · show ((3 : ℚ) / 4) ^ 2 = ksArg (1 / 2)
    unfold ksArg reflectance_to_ks
    norm_num
  · exact ks_roundtrip (fun _ => 3 / 4) (1 / 2) (by norm_num) (by norm_num)
      ⟨by norm_num, by unfold ksArg reflectance_to_ks; norm_num⟩

/-- A Rust `for`-loop that pushes one result per element and whose body can
panic: `none` as soon as one element fails, otherwise the list of results. -/
def mapOpt {α β : Type} (f : α → Option β) : List α → Option (List β)
  | [] => some []
  | x :: xs =>
    match f x, mapOpt f xs with
    | some y, some ys => some (y :: ys)
    | _, _ => none

/-- `optimization.rs` lines 32-58: mix reflectance curves in K/S space.
The Rust function reads `reflectance_data[0].len()` before anything else
(panic — modelled as `none` — on an empty curve list), returns a zero vector
of that length when `Σ weights ≤ 0`, and otherwise, per band `i`, averages
`reflectance_to_ks(reflectance_data[j][i]) * normalized_weight[j]` over the
enumerated normalized weights and maps the sum back through
`ks_to_reflectance`.  Every index into `reflectance_data[j][i]` that would
panic is `none`. -/
def kubelka_munk_mix (sq : ℚ → ℚ) (reflectance_data : List (List ℚ))
    (weights : List ℚ) : Option (List ℚ) :=
  match reflectance_data with
  | [] => none
  | r0 :: _ =>
    let n := r0.length
    let sum_weights := weights.sum
    if sum_weights ≤ 0 then some (List.replicate n 0)
    else
      let normalized_weights := weights.map (fun w => w / sum_weights)
      mapOpt (fun i =>
        (mapOpt (fun jw =>
            ((reflectance_data.get? jw.1).bind (fun rj => rj.get? i)).map
              (fun r => reflectance_to_ks r * jw.2)) normalized_weights.enum).map
          (fun terms => ks_to_reflectance sq terms.sum))
        (List.range n)

/-- If `f` succeeds (with value `g x`) on every element of `l`, then
`mapOpt f l` succeeds with `l.map g`. -/
theorem mapOpt_eq_some_map {α β : Type} (l : List α) (f : α → Option β)
    (g : α → β) (h : ∀ x ∈ l, f x = some (g x)) :
    mapOpt f l = some (l.map g) := by
  induction l with
  | nil => rfl
  | cons x xs ih =>
    rw [mapOpt, h x (by simp), ih (fun y hy => h y (by simp [hy]))]
    rfl

/-- Reading each position of `l` back through `getD` reproduces `l`. -/
theorem map_getD_range {α : Type} [Inhabited α] (l : List α) (d : α) :
    (List.range l.length).map (fun i => l.getD i d) = l := by
  induction l with
  | nil => rfl
  | cons x xs ih =>
    rw [List.length_cons, List.range_succ_eq_map, List.map_cons,
      List.map_map]
    simp only [List.getD_cons_zero, Function.comp_def, List.getD_cons_succ]
    rw [ih]

/-- `mapOpt` preserves length when it succeeds. -/
theorem length_of_mapOpt_some {α β : Type} (l : List α) (f : α → Option β)
    (out : List β) (h : mapOpt f l = some out) : out.length = l.length := by
  induction l generalizing out with
  | nil =>
    rw [mapOpt] at h
    cases h
    rfl
  | cons x xs ih =>
    rw [mapOpt] at h
    cases hfx : f x with
    | none => rw [hfx] at h; simp at h
    | some b =>
      rw [hfx] at h
      cases hxs : mapOpt f xs with
      | none => rw [hxs] at h; simp at h
      | some bs =>
        rw [hxs] at h
        cases h
        simp [ih bs hxs]

/-- C10: `kubelka_munk_mix` reads `reflectance_data[0]` before the
weight-sum check, so on an empty curve list it panics (`none`) for every
weight vector — including weight vectors with non-positive sum — and
whenever it does return a vector, that vector's length equals the length of
the first curve. -/
theorem km_mix_empty_panics_and_length :
    (∀ (sq : ℚ → ℚ) (weights : List ℚ),
        kubelka_munk_mix sq [] weights = none) ∧
    (∀ (sq : ℚ → ℚ) (r0 : List ℚ) (rest : List (List ℚ)) (weights : List ℚ)
        (out : List ℚ),
        kubelka_munk_mix sq (r0 :: rest) weights = some out →
        out.length = r0.length) := by
  constructor
  · intro sq weights
    rfl
  · intro sq r0 rest weights out h
    unfold kubelka_munk_mix at h
    by_cases hw : weights.sum ≤ 0
    · simp only [if_pos hw, Option.some.injEq] at h
      subst h
      simp
    · simp only [if_neg hw] at h
      have hlen := length_of_mapOpt_some _ _ _ h
      simpa using hlen

/-- Concrete instance of C10: a one-curve, one-weight mix succeeds and its
output length matches the first curve's length. -/
theorem km_mix_length_witness :
    kubelka_munk_mix (fun _ => 3 / 4) [[(1 : ℚ) / 2]] [1] = some [(1 : ℚ) / 2] ∧
      ([(1 : ℚ) / 2] : List ℚ).length = ([(1 : ℚ) / 2] : List ℚ).length := by
  have h : kubelka_munk_mix (fun _ => 3 / 4) [[(1 : ℚ) / 2]] [1]
      = some [(1 : ℚ) / 2] := by
    norm_num [kubelka_munk_mix, mapOpt, List.range_succ, List.enum,
      List.enumFrom, reflectance_to_ks, ks_to_reflectance]
  exact ⟨h, km_mix_empty_panics_and_length.2 (fun _ => 3 / 4) [(1 : ℚ) / 2]
    [] [1] [(1 : ℚ) / 2] h ▸ rfl⟩

/-- The exact square root used by the C8 counterexample: the clamp sends
`R = 1` to `0.999`, whose `K/S` value is `1/1998000`, and
`ksArg 1 = (1999/1998000)^2`. -/
def sqCE : ℚ → ℚ := fun _ => 1999 / 1998000

/-- Counterexample to C8 as stated: with a genuine exact square root, the
two-curve mix with weights `(1, 0)` of first curve `[1]` is `[0.999]`, not
the first curve `[1]` — the `[0.001, 0.999]` clamp in `reflectance_to_ks`
destroys the round trip for out-of-range entries. -/
theorem km_mix_first_weight_counterexample :
    IsSqrtAt sqCE (ksArg 1) ∧
      kubelka_munk_mix sqCE [[1], [(1 : ℚ) / 2]] [1, 0] = some [999 / 1000] ∧
      kubelka_munk_mix sqCE [[1], [(1 : ℚ) / 2]] [1, 0] ≠ some [1] := by
  refine ⟨⟨by norm_num [sqCE], ?_⟩, ?_, ?_⟩
  · show sqCE (ksArg 1) ^ 2 = ksArg 1
    norm_num [sqCE, ksArg, reflectance_to_ks]
  · norm_num [kubelka_munk_mix, mapOpt, List.range_succ, List.enum,
      List.enumFrom, reflectance_to_ks, ks_to_reflectance, sqCE]
  · intro h
    have h' : kubelka_munk_mix sqCE [[1], [(1 : ℚ) / 2]] [1, 0]
        = some [999 / 1000] := by
      norm_num [kubelka_munk_mix, mapOpt, List.range_succ, List.enum,
        List.enumFrom, reflectance_to_ks, ks_to_reflectance, sqCE]
    rw [h'] at h
    norm_num at h

/-- C8 (amended): for curves whose first-curve entries all lie inside the
clamp range `[0.001, 0.999]` (and an exact square root at the needed
points), the two-curve mix with weights `(1, 0)` is exactly the first
curve. -/
theorem km_mix_first_weight (sq : ℚ → ℚ) (a b : List ℚ)
    (hlen : b.length = a.length)
    (hab : ∀ x ∈ a, 1 / 1000 ≤ x ∧ x ≤ 999 / 1000)
    (hsq : ∀ x ∈ a, IsSqrtAt sq (ksArg x)) :
    kubelka_munk_mix sq [a, b] [1, 0] = some a := by
  have h1 : ¬(([1, 0] : List ℚ).sum ≤ 0) := by norm_num
  have h2 : ([1, 0] : List ℚ).map (fun w => w / ([1, 0] : List ℚ).sum)
      = [1, 0] := by norm_num
  simp only [kubelka_munk_mix, if_neg h1, h2]
  have hF : ∀ i ∈ List.range a.length,
      (mapOpt (fun jw =>
          ((([a, b] : List (List ℚ)).get? jw.1).bind (fun rj => rj.get? i)).map
            (fun r => reflectance_to_ks r * jw.2)) ([1, 0] : List ℚ).enum).map
        (fun terms => ks_to_reflectance sq terms.sum) = some (a.getD i 0) := by
    intro i hi
    rw [List.mem_range] at hi
    have hib : i < b.length := by rw [hlen]; exact hi
    have hga : a.get? i = some a[i] := by
      rw [List.get?_eq_getElem?, List.getElem?_eq_getElem hi]
    have hgb : b.get? i = some b[i] := by
      rw [List.get?_eq_getElem?, List.getElem?_eq_getElem hib]
    have henum : (([1, 0] : List ℚ)).enum = [(0, 1), (1, 0)] := by
      norm_num [List.enum, List.enumFrom]
    rw [henum]
    simp only [mapOpt, List.get?_cons_zero, List.get?_cons_succ,
      Option.some_bind, hga, hgb, Option.map_some']
    have hsum : reflectance_to_ks a[i] * 1 + (reflectance_to_ks b[i] * 0 + 0)
        = reflectance_to_ks a[i] := by ring
    have hmem : a[i] ∈ a := List.getElem_mem hi
    have hgd : a.getD i 0 = a[i] := by
      rw [List.getD_eq_getElem?_getD, List.getElem?_eq_getElem hi]
      rfl
    simp only [List.sum_cons, List.sum_nil, hsum, hgd]
    rw [roundtrip_eq sq a[i] (hab a[i] hmem).1 (hab a[i] hmem).2 (hsq a[i] hmem)]
  rw [mapOpt_eq_some_map _ _ (fun i => a.getD i 0) hF, map_getD_range]

/-- Concrete instance of the amended C8 at curves `[1/2]`, `[1/3]`. -/
theorem km_mix_first_weight_witness :
    kubelka_munk_mix (fun _ => 3 / 4) [[(1 : ℚ) / 2], [(1 : ℚ) / 3]] [1, 0]
      = some [(1 : ℚ) / 2] := by
  refine km_mix_first_weight (fun _ => 3 / 4) [(1 : ℚ) / 2] [(1 : ℚ) / 3]
    rfl ?_ ?_
  · intro x hx
    rw [List.mem_singleton] at hx
    subst hx
    norm_num
  · intro x hx
    rw [List.mem_singleton] at hx
    subst hx
    exact ⟨by norm_num, by norm_num [ksArg, reflectance_to_ks]⟩

/-- `models/paint.rs` lines 12-18: a recipe produced by the search. -/
structure MixingResult where
  paints : List String
  weights : List ℚ
  error : ℚ
  hex_colors : List String
deriving DecidableEq

/-- `models/paint.rs` lines 30-38: the mixing error type.  It has exactly
these three constructors; there is no dedicated invalid-strategy variant. -/
inductive ColorError where
  | MissingColor : String → ColorError
  | NoValidMixture : ColorError
  | OptimizationError : String → ColorError
deriving DecidableEq

/-- A pool entry as used by the search: `(name, reflectance curve, hex)`. -/
abbrev Paint := String × List ℚ × String

instance exceptDecEq {ε α : Type} [DecidableEq ε] [DecidableEq α] :
    DecidableEq (Except ε α) := fun a b =>
  match a, b with
  | Except.ok x, Except.ok y =>
    if h : x = y then isTrue (by rw [h])
    else isFalse (fun hc => h (by injection hc))
  | Except.error x, Except.error y =>
    if h : x = y then isTrue (by rw [h])
    else isFalse (fun hc => h (by injection hc))
  | Except.ok _, Except.error _ => isFalse (fun hc => Except.noConfusion hc)
  | Except.error _, Except.ok _ => isFalse (fun hc => Except.noConfusion hc)

/-- Mean squared error of `target - mixed` (`optimization.rs` lines 96-98):
`ndarray` subtraction panics (`none`) on a length mismatch, and
`mean().unwrap_or(f64::MAX)` turns the empty mean into `f64::MAX`. -/
def mseOpt (target mixed : List ℚ) : Option ℚ :=
  if target.length = mixed.length then
    some (if target.length = 0 then fMAX
          else ((List.zipWith (fun a b => a - b) target mixed).map
              (fun x => x * x)).sum / (target.length : ℚ))
  else none

/-- One finite-difference gradient component (`optimization.rs` lines
119-133): bump weight `i` by `delta = 0.001`, renormalize (the Rust code
divides by the new sum unconditionally), remix, and divide the error
difference by `delta`. -/
def gradAt (sq : ℚ → ℚ) (data : List (List ℚ)) (target : List ℚ)
    (weights : List ℚ) (current_error : ℚ) (i : ℕ) : Option ℚ :=
  let test_weights := weights.set i (weights.getD i 0 + 1 / 1000)
  let s := test_weights.sum
  let test_weights := test_weights.map (fun w => w / s)
  (kubelka_munk_mix sq data test_weights).bind (fun test_mixed =>
    (mseOpt target test_mixed).map (fun test_error =>
      (test_error - current_error) / (1 / 1000)))

/-- Loop state of `optimize_weights`: current weights, learning rate, and
the best-so-far weights and error. -/
structure OWState where
  weights : List ℚ
  alpha : ℚ
  best_weights : List ℚ
  best_error : ℚ
deriving DecidableEq

/-- The 1000-iteration projected-gradient loop of `optimize_weights`
(`optimization.rs` lines 83-140), with the iteration counter made explicit
for the `iteration % 100` learning-rate decay.  Each pass: normalize when
the sum is positive, mix, score, update best-so-far, stop early below the
`1e-8` tolerance, decay `alpha` every 100 iterations, then take a clamped
gradient step.  Panics inside (`kubelka_munk_mix` on bad shapes) are
`none`. -/
def owLoop (sq : ℚ → ℚ) (data : List (List ℚ)) (target : List ℚ) :
    ℕ → ℕ → OWState → Option OWState
  | 0, _, st => some st
  | fuel + 1, iteration, st =>
    let sum := st.weights.sum
    let weights := if 0 < sum then st.weights.map (fun w => w / sum)
      else st.weights
    match kubelka_munk_mix sq data weights with
    | none => none
    | some mixed =>
      match mseOpt target mixed with
      | none => none
      | some current_error =>
        let best := if current_error < st.best_error
          then (weights, current_error)
          else (st.best_weights, st.best_error)
        if current_error < 1 / 100000000 then
          some ⟨weights, st.alpha, best.1, best.2⟩
        else
          let alpha := if 0 < iteration ∧ iteration % 100 = 0
            then st.alpha * (9 / 10) else st.alpha
          match mapOpt (gradAt sq data target weights current_error)
              (List.range weights.length) with
          | none => none
          | some gradients =>
            let weights2 := (List.range weights.length).map (fun i =>
              min (max (weights.getD i 0 - alpha * gradients.getD i 0) 0) 1)
            owLoop sq data target fuel (iteration + 1)
              ⟨weights2, alpha, best.1, best.2⟩

/-- `optimization.rs` lines 62-151: `optimize_weights`.  Runs the gradient
loop from uniform state (`alpha = 0.5`, `best_error = f64::MAX`) and
returns the best weights found, renormalized when their sum is positive.
Note the Rust function's only exit (line 150) is `Ok(best_weights)`: it
never constructs an error value. -/
def optimize_weights (sq : ℚ → ℚ) (selected_paints : List Paint)
    (initial_weights : List ℚ) (target_reflectance : List ℚ) :
    Option (Except ColorError (List ℚ)) :=
  let reflectances := selected_paints.map (fun p => p.2.1)
  (owLoop sq reflectances target_reflectance 1000 0
      ⟨initial_weights, 1 / 2, initial_weights, fMAX⟩).map (fun st =>
    let sum := st.best_weights.sum
    Except.ok (if 0 < sum then st.best_weights.map (fun w => w / sum)
      else st.best_weights))

/-- Whenever `optimize_weights` returns (does not panic), its value is
`Ok`: the optimizer has no error path. -/
theorem optimize_weights_ok (sq : ℚ → ℚ) (sel : List Paint)
    (init target : List ℚ) (r : Except ColorError (List ℚ))
    (h : optimize_weights sq sel init target = some r) :
    ∃ w, r = Except.ok w := by
  simp only [optimize_weights] at h
  cases hloop : owLoop sq (sel.map (fun p => p.2.1)) target 1000 0
      ⟨init, 1 / 2, init, fMAX⟩ with
  | none => rw [hloop] at h; simp at h
  | some st =>
    rw [hloop] at h
    simp only [Option.map_some', Option.some.injEq] at h
    exact ⟨_, h.symm⟩

/-- Rust `str::to_lowercase` (ASCII-faithful model): lowercase every
character. -/
def strToLower (s : String) : String := String.mk (s.data.map Char.toLower)

/-- Strip whitespace from both ends of a character list. -/
def trimChars (l : List Char) : List Char :=
  ((l.dropWhile Char.isWhitespace).reverse.dropWhile Char.isWhitespace).reverse

/-- Rust `str::trim`. -/
def strTrim (s : String) : String := String.mk (trimChars s.data)

/-- `needle` occurs as a contiguous substring of the haystack. -/
def charsContains (needle : List Char) : List Char → Bool
  | [] => needle.isEmpty
  | c :: t => needle.isPrefixOf (c :: t) || charsContains needle t

/-- Rust `str::contains` on string patterns. -/
def strContains (s pat : String) : Bool := charsContains pat.data s.data

/-- The unordered pairs `(l[i], l[j])`, `i < j`, in the enumeration order of
the Rust double loop (`paint_mixing.rs` lines 95-106). -/
def pairsOf {α : Type} : List α → List (α × α)
  | [] => []
  | x :: xs => xs.map (fun y => (x, y)) ++ pairsOf xs

/-- The unordered triples `(l[i], l[j], l[k])`, `i < j < k`, in the
enumeration order of the Rust triple loop (`paint_mixing.rs` lines
109-123). -/
def triplesOf {α : Type} : List α → List (α × α × α)
  | [] => []
  | x :: xs => (pairsOf xs).map (fun p => (x, p.1, p.2)) ++ triplesOf xs

/-- Contiguous windows `data[i..i+n]` for each size `n` in `sizes`
(`paint_mixing.rs` lines 152-158 and 245-250):
`for i in 0..len.saturating_sub(n-1)`. -/
def windowsOf (paint_data : List Paint) (sizes : List ℕ) : List (List Paint) :=
  (sizes.map (fun n =>
    (List.range (paint_data.length - (n - 1))).map
      (fun i => (paint_data.drop i).take n))).flatten

/-- The per-combination step shared by all strategies (`paint_mixing.rs`
lines 130-139 etc.): uniform initial weights `1/n`, `optimize_weights`,
drop `Err` results (`.ok()`), and build the recipe via `create_result` —
abstracted as the parameter `cr`, since `create_result` converts through
Lab space (cube roots).  A panic inside the optimizer propagates
(`none`). -/
def processCombos (sq : ℚ → ℚ) (cr : List Paint → List ℚ → List ℚ → MixingResult)
    (target : List ℚ) (combos : List (List Paint)) :
    Option (List MixingResult) :=
  (mapOpt (fun paints =>
      (optimize_weights sq paints
          (List.replicate paints.length (1 / (paints.length : ℚ))) target).map
        (fun res => res.toOption.map (fun w => cr paints w target)))
    combos).map List.reduceOption

/-- `paint_mixing.rs` lines 62-142: `find_black_white_n_colors`.  Find
"titanium white" and "ivory black" by lowercased-trimmed name (white first;
its absence is reported before black is even looked for); filter the rest
(also excluding "warm white"); enumerate white+black+pair (`n_extra = 2`)
or white+black+triple (`n_extra = 3`) combinations; process them. -/
def find_black_white_n_colors (sq : ℚ → ℚ)
    (cr : List Paint → List ℚ → List ℚ → MixingResult) (target : List ℚ)
    (paint_data : List Paint) (n_extra : ℕ) :
    Option (Except ColorError (List MixingResult)) :=
  match paint_data.find? (fun p => strTrim (strToLower p.1) == "titanium white") with
  | none => some (Except.error (ColorError.MissingColor "Titanium White"))
  | some white =>
    match paint_data.find? (fun p => strTrim (strToLower p.1) == "ivory black") with
    | none => some (Except.error (ColorError.MissingColor "Ivory Black"))
    | some black =>
      let other_paints := paint_data.filter (fun p =>
        let name_lower := strToLower p.1
        !(strTrim name_lower == "titanium white") &&
        !(strTrim name_lower == "ivory black") &&
        !(strTrim name_lower == "warm white"))
      let combinations :=
        if n_extra = 2 then
          (pairsOf other_paints).map (fun pr => [white, black, pr.1, pr.2])
        else if n_extra = 3 then
          (triplesOf other_paints).map
            (fun tr => [white, black, tr.1, tr.2.1, tr.2.2])
        else []
      (processCombos sq cr target combinations).map Except.ok

/-- `paint_mixing.rs` lines 145-173: `find_all_available_colors` —
contiguous windows of 3, 4 and 5 paints. -/
def find_all_available_colors (sq : ℚ → ℚ)
    (cr : List Paint → List ℚ → List ℚ → MixingResult) (target : List ℚ)
    (paint_data : List Paint) :
    Option (Except ColorError (List MixingResult)) :=
  (processCombos sq cr target (windowsOf paint_data [3, 4, 5])).map Except.ok

/-- `paint_mixing.rs` lines 176-229: `find_neutral_greys` — each grey
(name containing "grey"/"gray") with every unordered pair of non-grey,
non-white/black/warm-white paints; empty grey set short-circuits to
`Ok([])`. -/
def find_neutral_greys (sq : ℚ → ℚ)
    (cr : List Paint → List ℚ → List ℚ → MixingResult) (target : List ℚ)
    (paint_data : List Paint) :
    Option (Except ColorError (List MixingResult)) :=
  let grey_paints := paint_data.filter (fun p =>
    strContains (strToLower p.1) "grey" || strContains (strToLower p.1) "gray")
  if grey_paints.isEmpty then some (Except.ok [])
  else
    let other_paints := paint_data.filter (fun p =>
      let name_lower := strToLower p.1
      !(strContains name_lower "grey") && !(strContains name_lower "gray") &&
      !(strTrim name_lower == "titanium white") &&
      !(strTrim name_lower == "ivory black") &&
      !(strTrim name_lower == "warm white"))
    let combinations := (grey_paints.map (fun grey =>
      (pairsOf other_paints).map (fun pr => [grey, pr.1, pr.2]))).flatten
    (processCombos sq cr target combinations).map Except.ok

/-- `paint_mixing.rs` lines 232-265: `find_no_black` — drop every paint
whose name contains "black", then contiguous windows of 3 and 4. -/
def find_no_black (sq : ℚ → ℚ)
    (cr : List Paint → List ℚ → List ℚ → MixingResult) (target : List ℚ)
    (paint_data : List Paint) :
    Option (Except ColorError (List MixingResult)) :=
  let available := paint_data.filter (fun p => !(strContains (strToLower p.1) "black"))
  (processCombos sq cr target (windowsOf available [3, 4])).map Except.ok

/-- The strategy dispatch of `find_combinations` (`paint_mixing.rs` lines
36-49), taking the already-lowercased strategy string. -/
def strategyResults (sq : ℚ → ℚ)
    (cr : List Paint → List ℚ → List ℚ → MixingResult) (target : List ℚ)
    (paint_data : List Paint) (choice : String) :
    Option (Except ColorError (List MixingResult)) :=
  if choice = "black + white + 2 colours" then
    find_black_white_n_colors sq cr target paint_data 2
  else if choice = "black + white + 3 colours" then
    find_black_white_n_colors sq cr target paint_data 3
  else if choice = "all available colours" then
    find_all_available_colors sq cr target paint_data
  else if choice = "neutral greys" then
    find_neutral_greys sq cr target paint_data
  else if choice = "no black" then
    find_no_black sq cr target paint_data
  else some (Except.error (ColorError.OptimizationError "Invalid mix choice"))

/-- Insert a recipe into a list before the first entry with strictly larger
error, keeping it after earlier entries with equal error. -/
def insertByError (r : MixingResult) : List MixingResult → List MixingResult
  | [] => [r]
  | x :: xs => if r.error ≤ x.error then r :: x :: xs else x :: insertByError r xs

/-- The stable ascending-by-`error` sort performed by
`sorted.sort_by(|a, b| a.error.partial_cmp(&b.error).unwrap_or(Equal))`
(`paint_mixing.rs` lines 52-57).  Rust's `sort_by` is stable, and a stable
sort under a total preorder has a unique result, here realized as an
insertion sort; `partial_cmp` on `ℚ` never hits the `unwrap_or(Equal)`
branch. -/
def sortByError : List MixingResult → List MixingResult
  | [] => []
  | x :: xs => insertByError x (sortByError xs)

/-- `paint_mixing.rs` lines 30-59: `find_combinations` — lowercase the
strategy, dispatch (propagating strategy errors via `?`), then stably sort
ascending by `error` and keep the first 5. -/
def find_combinations (sq : ℚ → ℚ)
    (cr : List Paint → List ℚ → List ℚ → MixingResult)
    (target_reflectance : List ℚ) (paint_data : List Paint)
    (mix_choice : String) : Option (Except ColorError (List MixingResult)) :=
  match strategyResults sq cr target_reflectance paint_data
      (strToLower mix_choice) with
  | none => none
  | some (Except.error e) => some (Except.error e)
  | some (Except.ok results) =>
    some (Except.ok ((sortByError results).take 5))

/-- Membership in an `insertByError` result. -/
theorem mem_insertByError (r y : MixingResult) (l : List MixingResult) :
    y ∈ insertByError r l ↔ y = r ∨ y ∈ l := by
  induction l with
  | nil => simp [insertByError]
  | cons x xs ih =>
    rw [insertByError]
    by_cases h : r.error ≤ x.error
    · rw [if_pos h]
      simp [or_comm, or_assoc, or_left_comm]
    · rw [if_neg h]
      simp [ih, or_comm, or_assoc, or_left_comm]

/-- `insertByError` preserves sortedness by `error`. -/
theorem sorted_insertByError (r : MixingResult) (l : List MixingResult)
    (h : List.Sorted (fun a b : MixingResult => a.error ≤ b.error) l) :
    List.Sorted (fun a b : MixingResult => a.error ≤ b.error)
      (insertByError r l) := by
  induction l with
  | nil => simp [insertByError]
  | cons x xs ih =>
    rw [List.sorted_cons] at h
    rw [insertByError]
    by_cases hrx : r.error ≤ x.error
    · rw [if_pos hrx, List.sorted_cons, List.sorted_cons]
      refine ⟨?_, h⟩
      intro b hb
      rcases List.mem_cons.mp hb with hbx | hbxs
      · rw [hbx]; exact hrx
      · exact le_trans hrx (h.1 b hbxs)
    · rw [if_neg hrx, List.sorted_cons]
      refine ⟨?_, ih h.2⟩
      intro b hb
      rcases (mem_insertByError r b xs).mp hb with hbr | hbxs
      · rw [hbr]; exact le_of_lt (lt_of_not_le hrx)
      · exact h.1 b hbxs

/-- `sortByError` sorts ascending by `error`. -/
theorem sorted_sortByError (l : List MixingResult) :
    List.Sorted (fun a b : MixingResult => a.error ≤ b.error) (sortByError l) := by
  induction l with
  | nil => simp [sortByError]
  | cons x xs ih => exact sorted_insertByError x (sortByError xs) ih

/-- Stability of the insertion step: filtering by any fixed `error` value
commutes with insertion, because the inserted element passes only elements
with strictly smaller `error`. -/
theorem filter_insertByError (r : MixingResult) (l : List MixingResult)
    (q : ℚ) :
    (insertByError r l).filter (fun x => x.error == q)
      = if r.error == q
        then r :: l.filter (fun x => x.error == q)
        else l.filter (fun x => x.error == q) := by
  induction l with
  | nil =>
    by_cases hr : r.error = q
    · simp [insertByError, hr]
    · simp [insertByError, hr]
  | cons x xs ih =>
    rw [insertByError]
    by_cases hrx : r.error ≤ x.error
    · rw [if_pos hrx]
      by_cases hr : r.error = q
      · simp [List.filter_cons, hr]
      · simp [List.filter_cons, hr]
    · rw [if_neg hrx]
      by_cases hx : x.error = q
      · have hr : ¬ r.error = q := fun hr => hrx (le_of_eq (hr.trans hx.symm))
        simp [List.filter_cons, hx, hr, ih]
      · by_cases hr : r.error = q
        · simp [List.filter_cons, hx, hr, ih]
        · simp [List.filter_cons, hx, hr, ih]

/-- Stability of `sortByError`: for every error value `q`, the recipes with
error `q` appear in the sorted list in exactly their original order. -/
theorem filter_sortByError (l : List MixingResult) (q : ℚ) :
    (sortByError l).filter (fun x => x.error == q)
      = l.filter (fun x => x.error == q) := by
  induction l with
  | nil => rfl
  | cons x xs ih =>
    rw [sortByError, filter_insertByError, ih]
    by_cases hx : x.error = q
    · rw [if_pos (by simpa using hx)]
      simp [List.filter_cons, hx]
    · rw [if_neg (by simpa using hx)]
      simp [List.filter_cons, hx]

/-- C3: whichever recognized strategy produced the raw recipe list, the
list returned by `find_combinations` has at most 5 entries, is sorted
ascending by `error`, and recipes of equal `error` keep their original
enumeration order (the filtered-by-error subsequence of the result is a
prefix of the corresponding subsequence of the raw list). -/
theorem find_combinations_top5_sorted_stable (sq : ℚ → ℚ)
    (cr : List Paint → List ℚ → List ℚ → MixingResult) (target : List ℚ)
    (paint_data : List Paint) (mix_choice : String)
    (raw res : List MixingResult)
    (hraw : strategyResults sq cr target paint_data (strToLower mix_choice)
      = some (Except.ok raw))
    (hres : find_combinations sq cr target paint_data mix_choice
      = some (Except.ok res)) :
    res.length ≤ 5 ∧
    (∀ (i j : Fin res.length), (i : ℕ) < (j : ℕ) →
        (res.get i).error ≤ (res.get j).error) ∧
    (∀ q : ℚ, (res.filter (fun x => x.error == q))
        <+: (raw.filter (fun x => x.error == q))) := by
  have hres' : res = (sortByError raw).take 5 := by
    unfold find_combinations at hres
    rw [hraw] at hres
    simpa using hres.symm
  subst hres'
  refine ⟨List.length_take_le 5 (sortByError raw), ?_, ?_⟩
  · have hs : List.Sorted (fun a b : MixingResult => a.error ≤ b.error)
        ((sortByError raw).take 5) :=
      List.Pairwise.sublist (List.take_sublist 5 (sortByError raw))
        (sorted_sortByError raw)
    exact fun i j hij => List.pairwise_iff_get.mp hs i j hij
  · intro q
    have hpre : ((sortByError raw).take 5).filter (fun x => x.error == q)
        <+: (sortByError raw).filter (fun x => x.error == q) :=
      ( List.take_prefix 5 (sortByError raw)).filter _
    rw [filter_sortByError raw q] at hpre
    exact hpre

/-- Concrete instance of C3: the `no black` strategy on an empty pool
yields an empty raw list and an empty result. -/
theorem find_combinations_top5_witness :
    ([] : List MixingResult).length ≤ 5 ∧
    (∀ (i j : Fin ([] : List MixingResult).length), (i : ℕ) < (j : ℕ) →
        (([] : List MixingResult).get i).error
          ≤ (([] : List MixingResult).get j).error) ∧
    (∀ q : ℚ, (([] : List MixingResult).filter (fun x => x.error == q))
        <+: (([] : List MixingResult).filter (fun x => x.error == q))) :=
  find_combinations_top5_sorted_stable (fun _ => 0) (fun _ _ _ => ⟨[], [], 0, []⟩)
    [] [] "no black" [] [] (by decide) (by decide)

/-- Counterexample to C4 as stated: on an unknown strategy string the code
fails with `ColorError::OptimizationError("Invalid mix choice")` — the
`ColorError` enum has no dedicated `InvalidStrategy` variant, so the
spec-named `InvalidStrategy` error is not what is produced. -/
theorem invalid_strategy_counterexample :
    find_combinations (fun _ => 0) (fun _ _ _ => ⟨[], [], 0, []⟩) [] []
        "a bogus strategy"
      = some (Except.error (ColorError.OptimizationError "Invalid mix choice"))
      ∧ ColorError.OptimizationError "Invalid mix choice"
          ≠ ColorError.MissingColor "Invalid mix choice" := by
  constructor
  · decide
  · decide

/-- C4 (amended): every strategy string whose lowercase form is not one of
the five recognized names makes `find_combinations` fail with
`OptimizationError("Invalid mix choice")` (the code's representation of an
invalid strategy; no recipes are produced). -/
theorem invalid_strategy_rejected (sq : ℚ → ℚ)
    (cr : List Paint → List ℚ → List ℚ → MixingResult) (target : List ℚ)
    (paint_data : List Paint) (mix_choice : String)
    (h : strToLower mix_choice ∉
      (["black + white + 2 colours", "black + white + 3 colours",
        "all available colours", "neutral greys", "no black"] : List String)) :
    find_combinations sq cr target paint_data mix_choice
      = some (Except.error (ColorError.OptimizationError "Invalid mix choice")) := by
  simp only [List.mem_cons, List.mem_singleton, not_or] at h
  obtain ⟨h1, h2, h3, h4, h5, -⟩ := h
  unfold find_combinations strategyResults
  rw [if_neg h1, if_neg h2, if_neg h3, if_neg h4, if_neg h5]

/-- Concrete instance of C4 (amended) at the strategy "unrecognised". -/
theorem invalid_strategy_witness :
    find_combinations (fun _ => 0) (fun _ _ _ => ⟨[], [], 0, []⟩) [] []
        "unrecognised"
      = some (Except.error (ColorError.OptimizationError "Invalid mix choice")) :=
  invalid_strategy_rejected (fun _ => 0) (fun _ _ _ => ⟨[], [], 0, []⟩) [] []
    "unrecognised" (by decide)

/-- Counterexample to C5 as stated: the empty pool contains no pigment
named "ivory black", yet under `black + white + 2 colours` the failure is
`MissingColor("Titanium White")`, not `MissingColor("Ivory Black")` — the
white lookup runs first. -/
theorem missing_color_counterexample :
    (([] : List Paint).find?
        (fun p => strTrim (strToLower p.1) == "ivory black") = none)
      ∧ find_combinations (fun _ => 0) (fun _ _ _ => ⟨[], [], 0, []⟩) [] []
          "black + white + 2 colours"
        = some (Except.error (ColorError.MissingColor "Titanium White"))
      ∧ ColorError.MissingColor "Titanium White"
          ≠ ColorError.MissingColor "Ivory Black" := by
  refine ⟨rfl, ?_, by decide⟩
  decide

/-- C5 (amended): under the two black+white strategies, a pool with no
"titanium white" (lowercased-trimmed name) fails with
`MissingColor("Titanium White")`, and a pool that does contain titanium
white but no "ivory black" fails with `MissingColor("Ivory Black")`. -/
theorem missing_color_errors (sq : ℚ → ℚ)
    (cr : List Paint → List ℚ → List ℚ → MixingResult) (target : List ℚ)
    (paint_data : List Paint) (mix_choice : String)
    (hstrat : strToLower mix_choice = "black + white + 2 colours" ∨
      strToLower mix_choice = "black + white + 3 colours") :
    (paint_data.find?
        (fun p => strTrim (strToLower p.1) == "titanium white") = none →
      find_combinations sq cr target paint_data mix_choice
        = some (Except.error (ColorError.MissingColor "Titanium White"))) ∧
    (∀ white,
      paint_data.find?
        (fun p => strTrim (strToLower p.1) == "titanium white") = some white →
      paint_data.find?
        (fun p => strTrim (strToLower p.1) == "ivory black") = none →
      find_combinations sq cr target paint_data mix_choice
        = some (Except.error (ColorError.MissingColor "Ivory Black"))) := by
  have hdisp : strategyResults sq cr target paint_data (strToLower mix_choice)
      = find_black_white_n_colors sq cr target paint_data 2 ∨
      strategyResults sq cr target paint_data (strToLower mix_choice)
      = find_black_white_n_colors sq cr target paint_data 3 := by
    rcases hstrat with hs | hs
    · left
      unfold strategyResults
      rw [if_pos hs]
    · right
      unfold strategyResults
      rw [if_neg (by rw [hs]; decide), if_pos hs]
  constructor
  · intro hw
    have hb : ∀ n, find_black_white_n_colors sq cr target paint_data n
        = some (Except.error (ColorError.MissingColor "Titanium White")) := by
      intro n
      unfold find_black_white_n_colors
      rw [hw]
    unfold find_combinations
    rcases hdisp with hd | hd <;> rw [hd, hb]
  · intro white hw hbk
    have hb : ∀ n, find_black_white_n_colors sq cr target paint_data n
        = some (Except.error (ColorError.MissingColor "Ivory Black")) := by
      intro n
      unfold find_black_white_n_colors
      rw [hw, hbk]
    unfold find_combinations
    rcases hdisp with hd | hd <;> rw [hd, hb]

/-- Concrete instances of C5 (amended): the empty pool is missing white;
a pool holding only Titanium White is missing black. -/
theorem missing_color_witness :
    find_combinations (fun _ => 0) (fun _ _ _ => ⟨[], [], 0, []⟩) [] []
        "black + white + 2 colours"
      = some (Except.error (ColorError.MissingColor "Titanium White"))
    ∧ find_combinations (fun _ => 0) (fun _ _ _ => ⟨[], [], 0, []⟩) []
        [("Titanium White", [], "#ffffff")] "black + white + 3 colours"
      = some (Except.error (ColorError.MissingColor "Ivory Black")) := by
  constructor
  · exact (missing_color_errors (fun _ => 0) (fun _ _ _ => ⟨[], [], 0, []⟩)
      [] [] "black + white + 2 colours" (Or.inl (by decide))).1 (by decide)
  · exact (missing_color_errors (fun _ => 0) (fun _ _ _ => ⟨[], [], 0, []⟩)
      [] [("Titanium White", [], "#ffffff")] "black + white + 3 colours"
      (Or.inr (by decide))).2 ("Titanium White", [], "#ffffff")
      (by decide) (by decide)

/-- An `Option.map Except.ok` value is never an `error`. -/
theorem map_ok_ne_error {α : Type} (x : Option α) (e : ColorError) :
    x.map (Except.ok (ε := ColorError)) ≠ some (Except.error e) := by
  cases x <;> simp

/-- The only errors `find_black_white_n_colors` produces are the two
missing-colour reports. -/
theorem find_black_white_error_shape (sq : ℚ → ℚ)
    (cr : List Paint → List ℚ → List ℚ → MixingResult) (target : List ℚ)
    (paint_data : List Paint) (n_extra : ℕ) (e : ColorError)
    (h : find_black_white_n_colors sq cr target paint_data n_extra
      = some (Except.error e)) :
    e = ColorError.MissingColor "Titanium White" ∨
      e = ColorError.MissingColor "Ivory Black" := by
  unfold find_black_white_n_colors at h
  cases hw : paint_data.find?
      (fun p => strTrim (strToLower p.1) == "titanium white") with
  | none =>
    rw [hw] at h
    left
    cases h
    rfl
  | some white =>
    rw [hw] at h
    cases hb : paint_data.find?
        (fun p => strTrim (strToLower p.1) == "ivory black") with
    | none =>
      rw [hb] at h
      right
      cases h
      rfl
    | some black =>
      rw [hb] at h
      exact absurd h (map_ok_ne_error _ e)

/-- The strategy dispatch never produces `NoValidMixture`: its only error
values are the two missing-colour reports and the invalid-choice report. -/
theorem strategyResults_error_shape (sq : ℚ → ℚ)
    (cr : List Paint → List ℚ → List ℚ → MixingResult) (target : List ℚ)
    (paint_data : List Paint) (choice : String) (e : ColorError)
    (h : strategyResults sq cr target paint_data choice
      = some (Except.error e)) :
    e = ColorError.MissingColor "Titanium White" ∨
      e = ColorError.MissingColor "Ivory Black" ∨
      e = ColorError.OptimizationError "Invalid mix choice" := by
  unfold strategyResults at h
  split_ifs at h
  · rcases find_black_white_error_shape sq cr target paint_data 2 e h with h' | h'
    · exact Or.inl h'
    · exact Or.inr (Or.inl h')
  · rcases find_black_white_error_shape sq cr target paint_data 3 e h with h' | h'
    · exact Or.inl h'
    · exact Or.inr (Or.inl h')
  · exact absurd h (map_ok_ne_error _ e)
  · simp only [find_neutral_greys] at h
    split_ifs at h
    · cases h
    · exact absurd h (map_ok_ne_error _ e)
  · exact absurd h (map_ok_ne_error _ e)
  · cases h
    exact Or.inr (Or.inr rfl)

/-- Counterexample to C9 as stated: a `black + white + 2 colours` search
over a pool holding only Titanium White and Ivory Black enumerates no
combinations, so the search yields no recipes at all — yet
`find_combinations` returns `Ok` with the empty list, not
`Err(NoValidMixture)`. -/
theorem no_valid_mixture_counterexample :
    find_combinations (fun _ => 0) (fun _ _ _ => ⟨[], [], 0, []⟩) []
        [("Titanium White", [], "#ffffff"), ("Ivory Black", [], "#000000")]
        "black + white + 2 colours"
      = some (Except.ok ([] : List MixingResult))
    ∧ (Except.ok ([] : List MixingResult) : Except ColorError (List MixingResult))
        ≠ Except.error ColorError.NoValidMixture := by
  constructor
  · decide
  · decide

/-- C9 (amended): `optimize_weights`'s only exit is `Ok`, so an `Err` from
it can never reach (and is in any case dropped by) the search's
`filter_map`; `find_combinations` never returns `NoValidMixture`; and a
search that yields no recipes returns `Ok` with the empty list. -/
theorem no_valid_mixture_never_surfaced :
    (∀ (sq : ℚ → ℚ) (sel : List Paint) (init target : List ℚ)
        (e : ColorError),
        optimize_weights sq sel init target ≠ some (Except.error e)) ∧
    (∀ (sq : ℚ → ℚ) (cr : List Paint → List ℚ → List ℚ → MixingResult)
        (target : List ℚ) (paint_data : List Paint) (mix_choice : String),
        find_combinations sq cr target paint_data mix_choice
          ≠ some (Except.error ColorError.NoValidMixture)) ∧
    (∀ (sq : ℚ → ℚ) (cr : List Paint → List ℚ → List ℚ → MixingResult)
        (target : List ℚ) (paint_data : List Paint) (mix_choice : String),
        strategyResults sq cr target paint_data (strToLower mix_choice)
          = some (Except.ok []) →
        find_combinations sq cr target paint_data mix_choice
          = some (Except.ok [])) := by
  refine ⟨?_, ?_, ?_⟩
  · intro sq sel init target e h
    obtain ⟨w, hw⟩ := optimize_weights_ok sq sel init target _ h
    cases hw
  · intro sq cr target paint_data mix_choice h
    unfold find_combinations at h
    cases hs : strategyResults sq cr target paint_data
        (strToLower mix_choice) with
    | none => rw [hs] at h; cases h
    | some r =>
      rw [hs] at h
      cases r with
      | ok results => simp at h
      | error e =>
        simp only [Option.some.injEq, Except.error.injEq] at h
        rcases strategyResults_error_shape sq cr target paint_data
            (strToLower mix_choice) e hs with h' | h' | h' <;>
          · rw [h'] at h
            cases h
  · intro sq cr target paint_data mix_choice h
    unfold find_combinations
    rw [h]
    rfl

/-- Concrete instances of C9 (amended): the optimizer on a one-paint pool
never yields an error value, a concrete search never yields
`NoValidMixture`, and the empty `no black` search returns `Ok([])`. -/
theorem no_valid_mixture_witness :
    optimize_weights (fun _ => 3 / 4) [("p", [(1 : ℚ) / 2], "#808080")] [1]
        [(1 : ℚ) / 2]
      ≠ some (Except.error ColorError.NoValidMixture)
    ∧ find_combinations (fun _ => 0) (fun _ _ _ => ⟨[], [], 0, []⟩) [] []
        "zzz" ≠ some (Except.error ColorError.NoValidMixture)
    ∧ find_combinations (fun _ => 0) (fun _ _ _ => ⟨[], [], 0, []⟩) [] []
        "no black" = some (Except.ok []) :=
  ⟨no_valid_mixture_never_surfaced.1 (fun _ => 3 / 4)
      [("p", [(1 : ℚ) / 2], "#808080")] [1] [(1 : ℚ) / 2]
      ColorError.NoValidMixture,
    no_valid_mixture_never_surfaced.2.1 (fun _ => 0)
      (fun _ _ _ => ⟨[], [], 0, []⟩) [] [] "zzz",
    no_valid_mixture_never_surfaced.2.2 (fun _ => 0)
      (fun _ _ _ => ⟨[], [], 0, []⟩) [] [] "no black" (by decide)⟩

/-- Rust's `{:.6}` fixed-point rendering of the best residual in the LHTSS
diagnostic, modelled as round-half-up to six decimal places. -/
def fmt6 (q : ℚ) : String :=
  let n : ℤ := ⌊q * 1000000 + 1 / 2⌋
  let ip := n / 1000000
  let fp := (n % 1000000).toNat
  let s := toString fp
  toString ip ++ "." ++ String.mk (List.replicate (6 - s.length) '0') ++ s

/-- The diagnostic of `lhtss.rs` lines 92-95:
`"LHTSS did not converge for RGB({},{},{}), best error: {:.6}"`. -/
def lhtssErrMsg (srgb : ℕ × ℕ × ℕ) (best_error : ℚ) : String :=
  "LHTSS did not converge for RGB(" ++ toString srgb.1 ++ "," ++
    toString srgb.2.1 ++ "," ++ toString srgb.2.2 ++ "), best error: " ++
    fmt6 best_error

/-- The squared KKT residual `Σ Fᵢ²` of a solver state (`lhtss.rs` line
63), with the residual vector computation abstracted as `residF`. -/
def sqResid {α : Type} (residF : α → List ℚ) (st : α) : ℚ :=
  ((residF st).map (fun x => x * x)).sum

/-- The convergence test `f.iter().all(|&x| x.abs() < ftol)` with
`ftol = 1e-6` (`lhtss.rs` line 76). -/
def convergedAt {α : Type} (residF : α → List ℚ) (st : α) : Bool :=
  (residF st).all (fun x => decide (|x| < 1 / 1000000))

/-- The Newton loop of `compute_reflectance_target` (`lhtss.rs` lines
48-82) over an abstract solver state `α` (holding `z` and `λ`):
`residF` computes the KKT residual vector `F` (lines 49-60), `stepF`
performs the Jacobian build, linear solve and update (lines 69-74, the
`?`-propagated errors being its `Except.error` channel), and `slice`
extracts `r(z)[2..33]` (lines 77-79).  Per iteration: score the residual,
update the best-so-far iterate, step, and return the slice of the
just-updated state when the pre-step residual converged; on fuel
exhaustion report the best iterate and its error. -/
def lhtssLoop {α : Type} (residF : α → List ℚ) (stepF : α → Except String α)
    (slice : α → List ℚ) :
    ℕ → α → α → ℚ → Except String (Sum (List ℚ) (α × ℚ))
  | 0, _, best_z, best_error => Except.ok (Sum.inr (best_z, best_error))
  | fuel + 1, st, best_z, best_error =>
    let error := sqResid residF st
    let best := if error < best_error then (st, error)
      else (best_z, best_error)
    match stepF st with
    | Except.error e => Except.error e
    | Except.ok st' =>
      if convergedAt residF st then Except.ok (Sum.inl (slice st'))
      else lhtssLoop residF stepF slice fuel st' best.1 best.2

/-- `lhtss.rs` lines 27-96: `compute_reflectance_target`.  All-zero sRGB
returns 31 bands of `0.0001`; all-255 returns 31 bands of `1.0`; otherwise
run 500 Newton iterations from the zero state (`best_error = f64::MAX`),
and after the loop accept the best iterate when its squared residual is
below `1.0`, else fail with the diagnostic naming the RGB triple and the
best residual. -/
def compute_reflectance_target {α : Type} (residF : α → List ℚ)
    (stepF : α → Except String α) (slice : α → List ℚ) (init : α)
    (srgb : ℕ × ℕ × ℕ) : Except String (List ℚ) :=
  if srgb.1 = 0 ∧ srgb.2.1 = 0 ∧ srgb.2.2 = 0 then
    Except.ok (List.replicate 31 (1 / 10000))
  else if srgb.1 = 255 ∧ srgb.2.1 = 255 ∧ srgb.2.2 = 255 then
    Except.ok (List.replicate 31 1)
  else
    match lhtssLoop residF stepF slice 500 init init fMAX with
    | Except.error e => Except.error e
    | Except.ok (Sum.inl reduced) => Except.ok reduced
    | Except.ok (Sum.inr (best_z, best_error)) =>
      if best_error < 1 then Except.ok (slice best_z)
      else Except.error (lhtssErrMsg srgb best_error)

/-- C2: the all-zero sRGB triple yields 31 bands of exactly `0.0001` and
the all-255 triple yields 31 bands of exactly `1.0`, for every solver
(`residF`, `stepF`, `slice`, `init`) — the Newton solver is never
consulted. -/
theorem lhtss_special_cases {α : Type} (residF : α → List ℚ)
    (stepF : α → Except String α) (slice : α → List ℚ) (init : α) :
    compute_reflectance_target residF stepF slice init (0, 0, 0)
      = Except.ok (List.replicate 31 (1 / 10000)) ∧
    compute_reflectance_target residF stepF slice init (255, 255, 255)
      = Except.ok (List.replicate 31 1) := by
  constructor
  · rfl
  · rfl

/-- One row of the `T · R36` product (`lhtss.rs` line 146), over an
abstract 3×36 matrix `t`. -/
def dotRow (t : ℕ → ℕ → ℚ) (i : ℕ) (r : List ℚ) : ℚ :=
  ((List.range 36).map (fun j => t i j * r.getD j 0)).sum

/-- `lhtss.rs` lines 131-148: `reflectance_to_xyz`.  A 31-band input is
padded to 36 bands exactly as the code does it — zero-fill, assign the
slice `2..33`, then overwrite bands 0, 1 with `reflectance[0]` and bands
33, 34, 35 with `reflectance[30]`; any other length is used as-is.  The
final `t_matrix.dot` panics (`none`) unless the vector has 36 entries. -/
def reflectance_to_xyz (t : ℕ → ℕ → ℚ) (reflectance : List ℚ) :
    Option (List ℚ) :=
  let r := if reflectance.length = 31 then
      let full := List.replicate 36 (0 : ℚ)
      let full := full.take 2 ++ reflectance ++ full.drop (2 + reflectance.length)
      ((((full.set 0 (reflectance.getD 0 0)).set 1
            (reflectance.getD 0 0)).set 33
          (reflectance.getD 30 0)).set 34
        (reflectance.getD 30 0)).set 35 (reflectance.getD 30 0)
    else reflectance
  if r.length = 36 then some [dotRow t 0 r, dotRow t 1 r, dotRow t 2 r]
  else none

/-- Modelled from the spec (§4.1 "Reflectance → XYZ"): the pad-and-hold
policy — copy `R[0]` into bands 0-1 and `R[30]` into bands 33-35 around
the 31 input bands. -/
def specPad (r : List ℚ) : List ℚ :=
  [r.getD 0 0, r.getD 0 0] ++ r ++
    [r.getD 30 0, r.getD 30 0, r.getD 30 0]

/-- Modelled from the spec: `XYZ = T · R36` with the pad-and-hold `R36`. -/
def specXYZ (t : ℕ → ℕ → ℚ) (r : List ℚ) : List ℚ :=
  [dotRow t 0 (specPad r), dotRow t 1 (specPad r), dotRow t 2 (specPad r)]

/-- Setting an element past a left append segment sets it in the right
segment. -/
theorem set_append_length_add {α : Type} (l1 l2 : List α) (k : ℕ) (v : α) :
    (l1 ++ l2).set (l1.length + k) v = l1 ++ l2.set k v := by
  induction l1 with
  | nil => simp
  | cons x xs ih => simp [List.set, Nat.succ_add, ih]

/-- The padded vector built by the code (zero-fill, slice-assign, then the
five explicit writes) is exactly the spec's pad-and-hold vector. -/
theorem code_pad_eq_spec_pad (r : List ℚ) (hr : r.length = 31) :
    ((((((List.replicate 36 (0 : ℚ)).take 2 ++ r ++
          (List.replicate 36 (0 : ℚ)).drop (2 + r.length)).set 0
            (r.getD 0 0)).set 1 (r.getD 0 0)).set 33 (r.getD 30 0)).set 34
        (r.getD 30 0)).set 35 (r.getD 30 0) = specPad r := by
  have hdrop : (List.replicate 36 (0 : ℚ)).drop (2 + r.length)
      = [0, 0, 0] := by
    rw [hr]
    rfl
  rw [hdrop, show (List.replicate 36 (0 : ℚ)).take 2 = [0, 0] from rfl]
  have hbase : (([0, 0] : List ℚ) ++ r ++ [0, 0, 0])
      = 0 :: 0 :: (r ++ [0, 0, 0]) := rfl
  rw [hbase]
  set v0 := r.getD 0 0
  set v30 := r.getD 30 0
  have e01 : ((0 :: 0 :: (r ++ [0, 0, 0]) : List ℚ).set 0 v0).set 1 v0
      = v0 :: v0 :: (r ++ [0, 0, 0]) := rfl
  rw [e01]
  have e33 : (v0 :: v0 :: (r ++ [0, 0, 0]) : List ℚ).set 33 v30
      = v0 :: v0 :: ((r ++ [0, 0, 0]).set 31 v30) := rfl
  have h31 : (r ++ ([0, 0, 0] : List ℚ)).set 31 v30 = r ++ [v30, 0, 0] := by
    have h := set_append_length_add r [0, 0, 0] 0 v30
    rw [hr] at h
    simpa using h
  rw [e33, h31]
  have e34 : (v0 :: v0 :: (r ++ [v30, 0, 0]) : List ℚ).set 34 v30
      = v0 :: v0 :: ((r ++ [v30, 0, 0]).set 32 v30) := rfl
  have h32 : (r ++ ([v30, 0, 0] : List ℚ)).set 32 v30
      = r ++ [v30, v30, 0] := by
    have h := set_append_length_add r [v30, 0, 0] 1 v30
    rw [hr] at h
    simpa using h
  rw [e34, h32]
  have e35 : (v0 :: v0 :: (r ++ [v30, v30, 0]) : List ℚ).set 35 v30
      = v0 :: v0 :: ((r ++ [v30, v30, 0]).set 33 v30) := rfl
  have h33 : (r ++ ([v30, v30, 0] : List ℚ)).set 33 v30
      = r ++ [v30, v30, v30] := by
    have h := set_append_length_add r [v30, v30, 0] 2 v30
    rw [hr] at h
    simpa using h
  rw [e35, h33]
  rfl

/-- C6: on every 31-band reflectance vector, `reflectance_to_xyz` computes
`T · R36` where `R36` is the spec's pad-and-hold padding (bands 0-1 copy
`R[0]`, bands 33-35 copy `R[30]`). -/
theorem reflectance_to_xyz_pad (t : ℕ → ℕ → ℚ) (r : List ℚ)
    (hr : r.length = 31) :
    reflectance_to_xyz t r = some (specXYZ t r) := by
  simp only [reflectance_to_xyz, if_pos hr, code_pad_eq_spec_pad r hr]
  have hlen : (specPad r).length = 36 := by
    simp [specPad, hr]
  rw [if_pos hlen]
  rfl

/-- Concrete instance of C6 on the constant half-reflectance curve and the
all-ones matrix. -/
theorem reflectance_to_xyz_pad_witness :
    reflectance_to_xyz (fun _ _ => 1) (List.replicate 31 ((1 : ℚ) / 2))
      = some (specXYZ (fun _ _ => 1) (List.replicate 31 ((1 : ℚ) / 2))) :=
  reflectance_to_xyz_pad (fun _ _ => 1) (List.replicate 31 ((1 : ℚ) / 2))
    (by simp)

/-- A list is a prefix-match of itself followed by anything. -/
theorem isPrefixOf_append_self (l suf : List Char) :
    l.isPrefixOf (l ++ suf) = true := by
  induction l with
  | nil => simp [List.isPrefixOf]
  | cons c t ih => simp [List.isPrefixOf, ih]

/-- A prefix-match is in particular a substring occurrence. -/
theorem charsContains_of_isPrefixOf (needle hay : List Char)
    (h : needle.isPrefixOf hay = true) : charsContains needle hay = true := by
  cases hay with
  | nil =>
    cases needle with
    | nil => rfl
    | cons c t => simp [List.isPrefixOf] at h
  | cons c t => simp [charsContains, h]

/-- A list occurring contiguously in the middle is a substring. -/
theorem charsContains_append (pre needle suf : List Char) :
    charsContains needle (pre ++ (needle ++ suf)) = true := by
  induction pre with
  | nil =>
    exact charsContains_of_isPrefixOf needle (needle ++ suf)
      (isPrefixOf_append_self needle suf)
  | cons c t ih => simp [charsContains, ih]

/-- String-level substring-of-concatenation fact. -/
theorem strContains_append_middle (x pat y : String) :
    strContains (x ++ (pat ++ y)) pat = true := by
  unfold strContains
  rw [String.data_append x (pat ++ y), String.data_append pat y]
  exact charsContains_append x.data pat.data y.data

/-- The best-so-far fold of the Newton loop: starting from the accumulator
`acc`, fold the squared residuals of iterates `s j0, s (j0+1), ...` for `n`
steps, keeping the earliest strict improvement (`lhtss.rs` lines 62-67). -/
def bestAux {α : Type} (residF : α → List ℚ) (s : ℕ → α) :
    ℕ → ℕ → α × ℚ → α × ℚ
  | _, 0, acc => acc
  | j0, n + 1, acc =>
    bestAux residF s (j0 + 1) n
      (if sqResid residF (s j0) < acc.2 then (s j0, sqResid residF (s j0))
        else acc)

/-- If the residual first converges at iterate `m` (within fuel), the loop
returns the slice of the state obtained by the `m`-th Newton step. -/
theorem lhtssLoop_converges {α : Type} (residF : α → List ℚ)
    (stepF : α → Except String α) (slice : α → List ℚ) (s : ℕ → α) :
    ∀ (m n j0 : ℕ) (bz : α) (be : ℚ), m < n →
      (∀ j, j < m → stepF (s (j0 + j)) = Except.ok (s (j0 + j + 1)) ∧
        convergedAt residF (s (j0 + j)) = false) →
      stepF (s (j0 + m)) = Except.ok (s (j0 + m + 1)) →
      convergedAt residF (s (j0 + m)) = true →
      lhtssLoop residF stepF slice n (s j0) bz be
        = Except.ok (Sum.inl (slice (s (j0 + m + 1)))) := by
  intro m
  induction m with
  | zero =>
    intro n j0 bz be hmn hpre hstep hconv
    obtain ⟨n', rfl⟩ : ∃ n', n = n' + 1 := ⟨n - 1, by omega⟩
    simp only [Nat.add_zero] at hstep hconv
    rw [lhtssLoop]
    simp [hstep, hconv]
  | succ m ih =>
    intro n j0 bz be hmn hpre hstep hconv
    obtain ⟨n', rfl⟩ : ∃ n', n = n' + 1 := ⟨n - 1, by omega⟩
    have h0 := hpre 0 (by omega)
    simp only [Nat.add_zero] at h0
    rw [lhtssLoop]
    simp only [h0.1, h0.2, Bool.false_eq_true, if_false]
    have harith : ∀ j : ℕ, j0 + 1 + j = j0 + (j + 1) := fun j => by omega
    have hres := ih n' (j0 + 1)
      (if sqResid residF (s j0) < be then (s j0, sqResid residF (s j0))
        else (bz, be)).1
      (if sqResid residF (s j0) < be then (s j0, sqResid residF (s j0))
        else (bz, be)).2
      (by omega)
      (fun j hj => by
        rw [harith j]
        exact hpre (j + 1) (by omega))
      (by rw [harith m]; exact hstep)
      (by rw [harith m]; exact hconv)
    rw [hres]
    have harith2 : j0 + 1 + m + 1 = j0 + (m + 1) + 1 := by omega
    rw [harith2]

/-- If the residual never converges and every step succeeds for `n`
iterations, the loop exhausts its fuel and reports the folded best
iterate. -/
theorem lhtssLoop_exhausts {α : Type} (residF : α → List ℚ)
    (stepF : α → Except String α) (slice : α → List ℚ) (s : ℕ → α) :
    ∀ (n j0 : ℕ) (bz : α) (be : ℚ),
      (∀ j, j < n → stepF (s (j0 + j)) = Except.ok (s (j0 + j + 1)) ∧
        convergedAt residF (s (j0 + j)) = false) →
      lhtssLoop residF stepF slice n (s j0) bz be
        = Except.ok (Sum.inr (bestAux residF s j0 n (bz, be))) := by
  intro n
  induction n with
  | zero =>
    intro j0 bz be hpre
    rfl
  | succ n ih =>
    intro j0 bz be hpre
    have h0 := hpre 0 (by omega)
    simp only [Nat.add_zero] at h0
    rw [lhtssLoop, bestAux]
    simp only [h0.1, h0.2, Bool.false_eq_true, if_false]
    have hres := ih (j0 + 1)
      (if sqResid residF (s j0) < be then (s j0, sqResid residF (s j0))
        else (bz, be)).1
      (if sqResid residF (s j0) < be then (s j0, sqResid residF (s j0))
        else (bz, be)).2
      (fun j hj => by
        have harith : j0 + 1 + j = j0 + (j + 1) := by omega
        rw [harith]
        exact hpre (j + 1) (by omega))
    rw [hres]

/-- The LHTSS diagnostic names the three input channels and the rendered
best residual. -/
theorem lhtssErrMsg_contains (srgb : ℕ × ℕ × ℕ) (be : ℚ) :
    strContains (lhtssErrMsg srgb be) (toString srgb.1) = true ∧
    strContains (lhtssErrMsg srgb be) (toString srgb.2.1) = true ∧
    strContains (lhtssErrMsg srgb be) (toString srgb.2.2) = true ∧
    strContains (lhtssErrMsg srgb be) (fmt6 be) = true := by
  unfold lhtssErrMsg
  refine ⟨?_, ?_, ?_, ?_⟩
  · have h : "LHTSS did not converge for RGB(" ++ toString srgb.1 ++ "," ++
        toString srgb.2.1 ++ "," ++ toString srgb.2.2 ++
        "), best error: " ++ fmt6 be
        = "LHTSS did not converge for RGB(" ++ (toString srgb.1 ++
          ("," ++ (toString srgb.2.1 ++ ("," ++ (toString srgb.2.2 ++
          ("), best error: " ++ fmt6 be)))))) := by
      simp [String.append_assoc]
    rw [h]
    exact strContains_append_middle _ _ _
  · have h : "LHTSS did not converge for RGB(" ++ toString srgb.1 ++ "," ++
        toString srgb.2.1 ++ "," ++ toString srgb.2.2 ++
        "), best error: " ++ fmt6 be
        = ("LHTSS did not converge for RGB(" ++ toString srgb.1 ++ ",") ++
          (toString srgb.2.1 ++ ("," ++ (toString srgb.2.2 ++
          ("), best error: " ++ fmt6 be)))) := by
      simp [String.append_assoc]
    rw [h]
    exact strContains_append_middle _ _ _
  · have h : "LHTSS did not converge for RGB(" ++ toString srgb.1 ++ "," ++
        toString srgb.2.1 ++ "," ++ toString srgb.2.2 ++
        "), best error: " ++ fmt6 be
        = ("LHTSS did not converge for RGB(" ++ toString srgb.1 ++ "," ++
          toString srgb.2.1 ++ ",") ++ (toString srgb.2.2 ++
          ("), best error: " ++ fmt6 be)) := by
      simp [String.append_assoc]
    rw [h]
    exact strContains_append_middle _ _ _
  · have h : "LHTSS did not converge for RGB(" ++ toString srgb.1 ++ "," ++
        toString srgb.2.1 ++ "," ++ toString srgb.2.2 ++
        "), best error: " ++ fmt6 be
        = ("LHTSS did not converge for RGB(" ++ toString srgb.1 ++ "," ++
          toString srgb.2.1 ++ "," ++ toString srgb.2.2 ++
          "), best error: ") ++ (fmt6 be ++ "") := by
      simp [String.append_assoc]
    rw [h]
    exact strContains_append_middle _ _ _

/-- C1: control flow of `compute_reflectance_target` on non-special sRGB
input, stated over any Newton trajectory `s` (with `s 0` the zero initial
state).  (1) If the KKT residual first satisfies `|Fᵢ| < 1e-6` at iterate
`m < 500` (all steps up to it succeeding), the result is `Ok` with the
slice of the stepped state.  (2) If all 500 iterations run without
converging, the result is `Ok` with the slice of the best-so-far iterate
when its squared residual is below `1.0`, and otherwise `Err` with the
diagnostic that names the input RGB triple and the best residual. -/
theorem lhtss_control_flow {α : Type} (residF : α → List ℚ)
    (stepF : α → Except String α) (slice : α → List ℚ) (init : α)
    (r g b : ℕ) (s : ℕ → α) (hs0 : s 0 = init)
    (hblack : ¬(r = 0 ∧ g = 0 ∧ b = 0))
    (hwhite : ¬(r = 255 ∧ g = 255 ∧ b = 255)) :
    (∀ m, m < 500 →
      (∀ j, j < m → stepF (s j) = Except.ok (s (j + 1)) ∧
        convergedAt residF (s j) = false) →
      stepF (s m) = Except.ok (s (m + 1)) →
      convergedAt residF (s m) = true →
      compute_reflectance_target residF stepF slice init (r, g, b)
        = Except.ok (slice (s (m + 1)))) ∧
    ((∀ j, j < 500 → stepF (s j) = Except.ok (s (j + 1)) ∧
        convergedAt residF (s j) = false) →
      ((bestAux residF s 0 500 (init, fMAX)).2 < 1 →
        compute_reflectance_target residF stepF slice init (r, g, b)
          = Except.ok (slice (bestAux residF s 0 500 (init, fMAX)).1)) ∧
      (1 ≤ (bestAux residF s 0 500 (init, fMAX)).2 →
        compute_reflectance_target residF stepF slice init (r, g, b)
          = Except.error
            (lhtssErrMsg (r, g, b) (bestAux residF s 0 500 (init, fMAX)).2) ∧
        strContains
          (lhtssErrMsg (r, g, b) (bestAux residF s 0 500 (init, fMAX)).2)
          (toString r) = true ∧
        strContains
          (lhtssErrMsg (r, g, b) (bestAux residF s 0 500 (init, fMAX)).2)
          (toString g) = true ∧
        strContains
          (lhtssErrMsg (r, g, b) (bestAux residF s 0 500 (init, fMAX)).2)
          (toString b) = true ∧
        strContains
          (lhtssErrMsg (r, g, b) (bestAux residF s 0 500 (init, fMAX)).2)
          (fmt6 (bestAux residF s 0 500 (init, fMAX)).2) = true)) := by
  have hcrt : compute_reflectance_target residF stepF slice init (r, g, b)
      = match lhtssLoop residF stepF slice 500 init init fMAX with
        | Except.error e => Except.error e
        | Except.ok (Sum.inl reduced) => Except.ok reduced
        | Except.ok (Sum.inr (best_z, best_error)) =>
          if best_error < 1 then Except.ok (slice best_z)
          else Except.error (lhtssErrMsg (r, g, b) best_error) := by
    unfold compute_reflectance_target
    rw [if_neg hblack, if_neg hwhite]
  constructor
  · intro m hm hpre hstep hconv
    have hloop := lhtssLoop_converges residF stepF slice s m 500 0 init fMAX
      hm (fun j hj => by simpa using hpre j hj) (by simpa using hstep)
      (by simpa using hconv)
    rw [hs0] at hloop
    rw [hcrt, hloop]
    simp
  · intro hpre
    have hloop := lhtssLoop_exhausts residF stepF slice s 500 0 init fMAX
      (fun j hj => by simpa using hpre j hj)
    rw [hs0] at hloop
    cases hbest : bestAux residF s 0 500 (init, fMAX) with
    | mk bz be =>
      rw [hbest] at hloop
      constructor
      · intro hlt
        simp only at hlt
        rw [hcrt, hloop]
        simp [hlt]
      · intro hge
        simp only at hge
        have hmsg := lhtssErrMsg_contains (r, g, b) be
        rw [hcrt, hloop]
        simp only [not_lt.mpr hge, if_neg (not_lt.mpr hge)]
        exact ⟨rfl, hmsg.1, hmsg.2.1, hmsg.2.2.1, hmsg.2.2.2⟩

/-- Concrete instance of C1: a trivial solver whose residual is empty
converges at the very first iterate, so `compute_reflectance_target` on
the non-special input `(1,2,3)` returns the slice of the stepped state. -/
theorem lhtss_control_flow_witness :
    compute_reflectance_target (fun _ : Unit => ([] : List ℚ))
      (fun _ => Except.ok ()) (fun _ => ([] : List ℚ)) () (1, 2, 3)
      = Except.ok [] :=
  (lhtss_control_flow (fun _ : Unit => ([] : List ℚ))
      (fun _ => Except.ok ()) (fun _ => ([] : List ℚ)) () 1 2 3
      (fun _ => ()) rfl (by decide) (by decide)).1 0 (by decide)
    (fun j hj => absurd hj (Nat.not_lt_zero j)) rfl rfl
